import Mathlib

/-!
Verification of the fdb-kubernetes-operator reconciliation engine against its
natural-language specification.  The Go source is shallowly embedded: pure
functions become Lean functions, stateful reconciliation steps become explicit
state-passing functions, fallible operations return `Except` or pair their
result with an `Option` error.  External collaborators (the Kubernetes API,
the sidecar clients, the hash of a serialized spec) are passed in as explicit
oracle parameters.
-/

/-! ## Decimal rendering and parsing of numeric instance ids

The Go side renders ids with `fmt.Sprintf("%d", n)` and parses them with
`strconv.Atoi`.  We embed decimal rendering with a fuel-based structural
recursion so that everything evaluates inside the kernel. -/

/-- Little-endian decimal digits of `n`, computed with `fuel` steps.
`natDigitsAux n n` is total because `n / 10 < n` for `n > 0`. -/
def natDigitsAux : Nat → Nat → List Nat
  | _, 0 => []
  | 0, _ + 1 => []
  | fuel + 1, n + 1 => (n + 1) % 10 :: natDigitsAux fuel ((n + 1) / 10)

/-- Little-endian decimal digits of `n` (empty for `0`). -/
def natDigits (n : Nat) : List Nat := natDigitsAux n n

/-- Value of a little-endian decimal digit list. -/
def natFromDigits : List Nat → Nat
  | [] => 0
  | d :: ds => d + 10 * natFromDigits ds

/-- Decimal digit character for a value below ten, as produced by `%d`. -/
def digitToChar (d : Nat) : Char := Nat.digitChar d

/-- Numeric value of a decimal digit character. -/
def charToDigit (c : Char) : Nat := c.toNat - 48

/-- Decimal rendering of a natural number, as `fmt.Sprintf("%d", n)`. -/
def natToString (n : Nat) : String :=
  if n = 0 then "0" else String.mk (((natDigits n).map digitToChar).reverse)

theorem natFromDigits_natDigitsAux (fuel n : Nat) (h : n ≤ fuel) :
    natFromDigits (natDigitsAux fuel n) = n := by
  induction fuel generalizing n with
  | zero =>
    interval_cases n
    rfl
  | succ fuel ih =>
    match n with
    | 0 => rfl
    | n + 1 =>
      have hdiv : (n + 1) / 10 ≤ fuel := by
        have h1 : (n + 1) / 10 < n + 1 := Nat.div_lt_self (Nat.succ_pos n) (by omega)
        omega
      simp only [natDigitsAux, natFromDigits, ih _ hdiv]
      omega

theorem natFromDigits_natDigits (n : Nat) :
    natFromDigits (natDigits n) = n :=
  natFromDigits_natDigitsAux n n (Nat.le_refl n)

theorem natDigitsAux_lt_ten (fuel n : Nat) :
    ∀ d ∈ natDigitsAux fuel n, d < 10 := by
  induction fuel generalizing n with
  | zero =>
    match n with
    | 0 => intro d hd; simp [natDigitsAux] at hd
    | n + 1 => intro d hd; simp [natDigitsAux] at hd
  | succ fuel ih =>
    match n with
    | 0 => intro d hd; simp [natDigitsAux] at hd
    | n + 1 =>
      intro d hd
      simp only [natDigitsAux, List.mem_cons] at hd
      rcases hd with h | h
      · subst h; exact Nat.mod_lt _ (by omega)
      · exact ih _ d h

theorem natDigits_lt_ten (n : Nat) : ∀ d ∈ natDigits n, d < 10 :=
  natDigitsAux_lt_ten n n

theorem natDigits_ne_nil (n : Nat) (h : 0 < n) : natDigits n ≠ [] := by
  match n, h with
  | n + 1, _ => simp [natDigits, natDigitsAux]

theorem digitToChar_isDigit (d : Nat) (h : d < 10) :
    (digitToChar d).isDigit = true := by
  interval_cases d <;> decide

theorem digitToChar_ne_dash (d : Nat) (h : d < 10) : digitToChar d ≠ '-' := by
  interval_cases d <;> decide

theorem charToDigit_digitToChar (d : Nat) (h : d < 10) :
    charToDigit (digitToChar d) = d := by
  interval_cases d <;> decide

/-! ## Instance identifiers

The identifier builder and parser are not present under `src/` (only their
callers and tests are), so they are modelled from the spec. -/

/-- Modelled from the spec: `InstanceID(prefix, processClass, n)` renders
`"{prefix-}{processClass}-{n}"` when the prefix is set and
`"{processClass}-{n}"` otherwise.  The function itself is missing from the
sources; this follows §4.1 of the spec. -/
def InstanceID (idPfx processClass : String) (n : Nat) : String :=
  if idPfx = "" then processClass ++ "-" ++ natToString n
  else idPfx ++ "-" ++ processClass ++ "-" ++ natToString n

/-- Modelled from the spec: `ParseInstanceID(id)` fails with
`MalformedIdentifier` when the trailing `-`-separated component is not a
positive integer, and otherwise returns the numeric id together with the
process class.  The function itself is missing from the sources.  The spec's
round-trip property (§8) forces a parse that is independent of any prefix, so
the process class is read as the component directly before the number. -/
def ParseInstanceID (id : String) : Except String (String × Nat) :=
  let rev := id.data.reverse
  let digs := rev.takeWhile Char.isDigit
  let rest := rev.dropWhile Char.isDigit
  if digs = [] then Except.error "MalformedIdentifier"
  else if natFromDigits (digs.map charToDigit) = 0 then
    Except.error "MalformedIdentifier"
  else if rest = [] then Except.ok ("", natFromDigits (digs.map charToDigit))
  else if rest.head? = some '-' then
    Except.ok (String.mk ((rest.tail.takeWhile (fun d => d != '-')).reverse),
      natFromDigits (digs.map charToDigit))
  else Except.error "MalformedIdentifier"

example : ParseInstanceID "storage-1" = Except.ok ("storage", 1) := by rfl
example : ParseInstanceID "dc1-storage-7" = Except.ok ("storage", 7) := by rfl
example : ParseInstanceID "cluster_controller-12" =
    Except.ok ("cluster_controller", 12) := by rfl
example : ParseInstanceID "storage-0" = Except.error "MalformedIdentifier" := by rfl
example : ParseInstanceID "storage-x1" = Except.error "MalformedIdentifier" := by rfl
example : InstanceID "" "storage" 1 = "storage-1" := by rfl
example : InstanceID "dc1" "storage" 1 = "dc1-storage-1" := by rfl

/-! ### List helpers for the identifier parser -/

theorem takeWhile_append_all (p : Char → Bool) (xs ys : List Char)
    (h : ∀ x ∈ xs, p x = true) :
    (xs ++ ys).takeWhile p = xs ++ ys.takeWhile p := by
  induction xs with
  | nil => simp
  | cons a l ih =>
    rw [List.cons_append, List.takeWhile_cons, if_pos (h a (by simp)),
      ih (fun x hx => h x (by simp [hx]))]
    simp

theorem dropWhile_append_all (p : Char → Bool) (xs ys : List Char)
    (h : ∀ x ∈ xs, p x = true) :
    (xs ++ ys).dropWhile p = ys.dropWhile p := by
  induction xs with
  | nil => simp
  | cons a l ih =>
    simp only [List.cons_append, List.dropWhile_cons, h a (by simp)]
    exact ih (fun x hx => h x (by simp [hx]))

theorem takeWhile_eq_self_of_all (p : Char → Bool) (xs : List Char)
    (h : ∀ x ∈ xs, p x = true) : xs.takeWhile p = xs := by
  have := takeWhile_append_all p xs [] h
  simpa using this

theorem mem_of_mem_takeWhile {p : Char → Bool} {l : List Char} :
    ∀ x ∈ l.takeWhile p, p x = true := by
  induction l with
  | nil => simp
  | cons a t ih =>
    intro x hx
    by_cases hp : p a = true
    · rw [List.takeWhile_cons, if_pos hp] at hx
      rcases List.mem_cons.mp hx with rfl | hx
      · exact hp
      · exact ih x hx
    · rw [List.takeWhile_cons, if_neg hp] at hx
      simp at hx

theorem isDigit_ne_dash {c : Char} (h : c.isDigit = true) : (c != '-') = true := by
  rcases eq_or_ne c '-' with rfl | hne
  · simp at h
  · simpa using hne

/-- If the maximal dash-free trailing run is all digits, it agrees with the
maximal digit run, and the rest starts at a dash (or is empty). -/
theorem takeWhile_dash_digit (l : List Char)
    (h : ∀ c ∈ l.takeWhile (fun c => c != '-'), c.isDigit = true) :
    l.takeWhile (fun c => c != '-') = l.takeWhile Char.isDigit ∧
      (l.dropWhile Char.isDigit = [] ∨ ∃ r, l.dropWhile Char.isDigit = '-' :: r) := by
  induction l with
  | nil => simp
  | cons a t ih =>
    by_cases ha : a = '-'
    · subst ha
      refine ⟨?_, Or.inr ⟨t, ?_⟩⟩
      · simp [List.takeWhile_cons]
      · simp [List.dropWhile_cons]
    · have ha2 : (a != '-') = true := by simpa using ha
      have hda : a.isDigit = true := by
        apply h
        rw [List.takeWhile_cons, if_pos ha2]
        exact List.mem_cons_self _ _
      have ht : ∀ c ∈ t.takeWhile (fun c => c != '-'), c.isDigit = true := by
        intro c hc
        apply h
        rw [List.takeWhile_cons, if_pos ha2]
        exact List.mem_cons_of_mem _ hc
      obtain ⟨h1, h2⟩ := ih ht
      refine ⟨?_, ?_⟩
      · rw [List.takeWhile_cons, if_pos ha2, List.takeWhile_cons, if_pos hda, h1]
      · rw [List.dropWhile_cons, if_pos hda]
        exact h2

/-- If the rest after the digit run is empty or starts at a dash, the digit
run agrees with the dash-free run. -/
theorem takeWhile_digit_dash (l : List Char)
    (h : l.dropWhile Char.isDigit = [] ∨ ∃ r, l.dropWhile Char.isDigit = '-' :: r) :
    l.takeWhile Char.isDigit = l.takeWhile (fun c => c != '-') := by
  induction l with
  | nil => simp
  | cons a t ih =>
    by_cases hda : a.isDigit = true
    · rw [List.takeWhile_cons, if_pos hda, List.takeWhile_cons,
        if_pos (isDigit_ne_dash hda)]
      rw [List.dropWhile_cons, if_pos hda] at h
      rw [ih h]
    · rw [List.dropWhile_cons, if_neg hda] at h
      rcases h with h | ⟨r, h⟩
      · simp at h
      · have : a = '-' := (List.cons.injEq _ _ _ _ ▸ h).1
        subst this
        simp [List.takeWhile_cons, hda]

/-! ### Round-trip and failure characterization for the identifier parser -/

/-- Trailing dash-separated component of an identifier. -/
def trailingComponent (id : String) : List Char :=
  (id.data.reverse.takeWhile (fun c => c != '-')).reverse

/-- The given characters form a positive decimal integer literal. -/
def isPositiveIntComponent (s : List Char) : Prop :=
  s ≠ [] ∧ (∀ c ∈ s, c.isDigit = true) ∧
    natFromDigits (s.reverse.map charToDigit) ≠ 0

theorem digitChars_all_digit (n : Nat) :
    ∀ c ∈ (natDigits n).map digitToChar, c.isDigit = true := by
  intro c hc
  rcases List.mem_map.mp hc with ⟨d, hd, rfl⟩
  exact digitToChar_isDigit d (natDigits_lt_ten n d hd)

theorem natFromDigits_digitChars (n : Nat) :
    natFromDigits (((natDigits n).map digitToChar).map charToDigit) = n := by
  rw [List.map_map]
  have : (natDigits n).map (charToDigit ∘ digitToChar) = (natDigits n).map id := by
    apply List.map_congr_left
    intro d hd
    exact charToDigit_digitToChar d (natDigits_lt_ten n d hd)
  rw [this, List.map_id, natFromDigits_natDigits]

/-- Core computation of the parser on a well-formed identifier. -/
theorem parseInstanceID_core (a : List Char) (n : Nat) (hn : 0 < n) :
    ParseInstanceID (String.mk (a ++ '-' :: ((natDigits n).map digitToChar).reverse)) =
      Except.ok (String.mk ((a.reverse.takeWhile (fun d => d != '-')).reverse), n) := by
  have hdata : (String.mk (a ++ '-' :: ((natDigits n).map digitToChar).reverse)).data
      = a ++ '-' :: ((natDigits n).map digitToChar).reverse := rfl
  have hrev : (a ++ '-' :: ((natDigits n).map digitToChar).reverse).reverse
      = ((natDigits n).map digitToChar) ++ '-' :: a.reverse := by
    rw [List.reverse_append, List.reverse_cons, List.reverse_reverse]
    simp
  have hall := digitChars_all_digit n
  have htake : (((natDigits n).map digitToChar) ++ '-' :: a.reverse).takeWhile Char.isDigit
      = (natDigits n).map digitToChar := by
    rw [takeWhile_append_all _ _ _ hall]
    simp [List.takeWhile_cons]
  have hdrop : (((natDigits n).map digitToChar) ++ '-' :: a.reverse).dropWhile Char.isDigit
      = '-' :: a.reverse := by
    rw [dropWhile_append_all _ _ _ hall]
    simp [List.dropWhile_cons]
  have hne : (natDigits n).map digitToChar ≠ [] := by
    intro hcontra
    exact natDigits_ne_nil n hn (List.map_eq_nil_iff.mp hcontra)
  have hval : natFromDigits (((natDigits n).map digitToChar).map charToDigit) = n :=
    natFromDigits_digitChars n
  unfold ParseInstanceID
  simp only [hdata, hrev, htake, hdrop, hval]
  rw [if_neg hne, if_neg (Nat.pos_iff_ne_zero.mp hn)]
  simp

theorem instanceID_data (idPfx pc : String) (n : Nat) (hn : 0 < n) :
    (InstanceID idPfx pc n).data =
      (if idPfx = "" then pc.data else idPfx.data ++ '-' :: pc.data)
        ++ '-' :: ((natDigits n).map digitToChar).reverse := by
  have hnat : (natToString n).data = ((natDigits n).map digitToChar).reverse := by
    unfold natToString
    rw [if_neg (Nat.pos_iff_ne_zero.mp hn)]
  unfold InstanceID
  by_cases hp : idPfx = ""
  · rw [if_pos hp, if_pos hp]
    show pc.data ++ "-".data ++ (natToString n).data = _
    rw [hnat]
    simp
  · rw [if_neg hp, if_neg hp]
    show idPfx.data ++ "-".data ++ pc.data ++ "-".data ++ (natToString n).data = _
    rw [hnat]
    simp

theorem string_mk_data (s : String) : String.mk s.data = s := rfl

theorem parseInstanceID_instanceID (idPfx pc : String) (n : Nat) (hn : 0 < n)
    (hpc : ∀ c ∈ pc.data, (c != '-') = true) :
    ParseInstanceID (InstanceID idPfx pc n) = Except.ok (pc, n) := by
  have hid : InstanceID idPfx pc n = String.mk
      ((if idPfx = "" then pc.data else idPfx.data ++ '-' :: pc.data)
        ++ '-' :: ((natDigits n).map digitToChar).reverse) := by
    rw [← string_mk_data (InstanceID idPfx pc n), instanceID_data idPfx pc n hn]
  rw [hid, parseInstanceID_core _ n hn]
  have hrevall : ∀ c ∈ pc.data.reverse, (c != '-') = true := by
    intro c hc
    exact hpc c (List.mem_reverse.mp hc)
  by_cases hp : idPfx = ""
  · rw [if_pos hp, takeWhile_eq_self_of_all _ _ hrevall, List.reverse_reverse,
      string_mk_data]
  · rw [if_neg hp]
    have harev : (idPfx.data ++ '-' :: pc.data).reverse
        = pc.data.reverse ++ '-' :: idPfx.data.reverse := by
      rw [List.reverse_append, List.reverse_cons]
      simp
    rw [harev, takeWhile_append_all _ _ _ hrevall]
    have : ('-' :: idPfx.data.reverse).takeWhile (fun d => d != '-') = [] := by
      simp [List.takeWhile_cons]
    rw [this, List.append_nil, List.reverse_reverse, string_mk_data]

theorem parseInstanceID_ok_iff (id : String) :
    (∃ pr, ParseInstanceID id = Except.ok pr) ↔
      isPositiveIntComponent (trailingComponent id) := by
  constructor
  · rintro ⟨pr, h⟩
    unfold ParseInstanceID at h
    simp only [] at h
    by_cases hd : id.data.reverse.takeWhile Char.isDigit = []
    · rw [if_pos hd] at h; cases h
    rw [if_neg hd] at h
    by_cases hv :
        natFromDigits ((id.data.reverse.takeWhile Char.isDigit).map charToDigit) = 0
    · rw [if_pos hv] at h; cases h
    rw [if_neg hv] at h
    have hrest : id.data.reverse.dropWhile Char.isDigit = [] ∨
        ∃ r, id.data.reverse.dropWhile Char.isDigit = '-' :: r := by
      by_cases hr : id.data.reverse.dropWhile Char.isDigit = []
      · exact Or.inl hr
      rw [if_neg hr] at h
      by_cases hh : (id.data.reverse.dropWhile Char.isDigit).head? = some '-'
      · right
        match hm : id.data.reverse.dropWhile Char.isDigit with
        | [] => exact absurd hm hr
        | c :: r2 =>
          rw [hm] at hh
          simp at hh
          exact ⟨r2, by rw [hh]⟩
      · rw [if_neg hh] at h; cases h
    have heq := takeWhile_digit_dash id.data.reverse hrest
    constructor
    · simp only [trailingComponent, ← heq]
      simpa using hd
    constructor
    · intro c hc
      simp only [trailingComponent, ← heq] at hc
      exact mem_of_mem_takeWhile c (List.mem_reverse.mp hc)
    · simp only [trailingComponent, ← heq, List.reverse_reverse]
      exact hv
  · rintro ⟨hne, hdig, hval⟩
    have hdigt : ∀ c ∈ id.data.reverse.takeWhile (fun c => c != '-'),
        c.isDigit = true := by
      intro c hc
      exact hdig c (by simpa [trailingComponent] using List.mem_reverse.mpr hc)
    obtain ⟨heq, hrest⟩ := takeWhile_dash_digit id.data.reverse hdigt
    have hd : id.data.reverse.takeWhile Char.isDigit ≠ [] := by
      rw [← heq]
      intro hcontra
      exact hne (by simp [trailingComponent, hcontra])
    have hv : natFromDigits
        ((id.data.reverse.takeWhile Char.isDigit).map charToDigit) ≠ 0 := by
      rw [← heq]
      simpa [trailingComponent, List.reverse_reverse] using hval
    unfold ParseInstanceID
    simp only []
    rw [if_neg hd, if_neg hv]
    rcases hrest with hr | ⟨r, hr⟩
    · rw [if_pos hr]
      exact ⟨_, rfl⟩
    · rw [if_neg (by rw [hr]; simp), if_pos (by rw [hr]; rfl)]
      exact ⟨_, rfl⟩

theorem parseInstanceID_error_msg (id : String) (e : String)
    (h : ParseInstanceID id = Except.error e) : e = "MalformedIdentifier" := by
  unfold ParseInstanceID at h
  simp only [] at h
  split at h
  · injection h with h1; exact h1.symm
  split at h
  · injection h with h1; exact h1.symm
  split at h
  · cases h
  split at h
  · cases h
  · injection h with h1; exact h1.symm

theorem parseInstanceID_error_iff (id : String) :
    ParseInstanceID id = Except.error "MalformedIdentifier" ↔
      ¬ isPositiveIntComponent (trailingComponent id) := by
  constructor
  · intro h hpos
    obtain ⟨pr, hok⟩ := (parseInstanceID_ok_iff id).mpr hpos
    rw [hok] at h
    cases h
  · intro h
    match hp : ParseInstanceID id with
    | Except.ok pr => exact absurd ((parseInstanceID_ok_iff id).mp ⟨pr, hp⟩) h
    | Except.error e =>
      rw [parseInstanceID_error_msg id e hp]

/-- C7 counterexample: the round-trip property fails as universally stated.
With an empty prefix and the process class "a-b", the identifier "a-b-1" is
also the identifier of class "b" under prefix "a", and the parse returns
("b", 1), not ("a-b", 1). -/
theorem claim_C7_counterexample :
    ParseInstanceID (InstanceID "" "a-b" 1) = Except.ok ("b", 1) ∧
      ParseInstanceID (InstanceID "" "a-b" 1) ≠ Except.ok ("a-b", 1) := by
  refine ⟨rfl, ?_⟩
  intro h
  rw [show ParseInstanceID (InstanceID "" "a-b" 1) = Except.ok ("b", 1) from rfl] at h
  injection h with h1
  have h2 : ("b" : String) = "a-b" := congrArg Prod.fst h1
  exact absurd h2 (by decide)

/-- C7 (amended): for every prefix, every process class containing no dash,
and every positive n, parsing the identifier built from them returns exactly
(processClass, n) with no error; and ParseInstanceID fails with
MalformedIdentifier exactly when the trailing component of the identifier is
not a positive integer.  (The dash restriction is forced: identifiers built
from ("", "a-b", 1) and ("a", "b", 1) coincide, so no parser can satisfy the
unrestricted claim.) -/
theorem claim_C7_parse_roundTrip :
    (∀ (idPfx pc : String) (n : Nat), 0 < n →
      (∀ c ∈ pc.data, (c != '-') = true) →
      ParseInstanceID (InstanceID idPfx pc n) = Except.ok (pc, n)) ∧
    (∀ id : String, ParseInstanceID id = Except.error "MalformedIdentifier" ↔
      ¬ isPositiveIntComponent (trailingComponent id)) :=
  ⟨parseInstanceID_instanceID, parseInstanceID_error_iff⟩

/-- Witness for C7: the round trip at a concrete prefixed identifier. -/
theorem claim_C7_parse_roundTrip_witness :
    ParseInstanceID (InstanceID "dc1" "storage" 3) = Except.ok ("storage", 3) :=
  claim_C7_parse_roundTrip.1 "dc1" "storage" 3 (by decide) (by decide)

/-! ## Coordinator bootstrap: generateInitialClusterFile

Embeds `generateInitialClusterFile` from
`src/pkg/controller/foundationdbcluster/foundationdbcluster_controller.go`
(lines 305-350).  `cluster.DesiredCoordinatorCount()` is not among the
sources, so the count is an explicit parameter (modelled from the spec §4.4:
the step requires at least that many storage pods).  The concurrent sidecar
address reads are modelled as the pods' IPs in pod-list order, and the
Kubernetes `Update`/config-map regeneration calls are abstracted as
succeeding. -/

/-- Character class of `connectionStringNameRegex = [^A-Za-z0-9_]` (negated:
this is true on the characters that are kept). -/
def connectionStringNameChar (c : Char) : Bool :=
  decide (('A' ≤ c ∧ c ≤ 'Z') ∨ ('a' ≤ c ∧ c ≤ 'z') ∨ ('0' ≤ c ∧ c ≤ '9') ∨ c = '_')

/-- Mirrors `connectionStringNameRegex.ReplaceAllString(cluster.Name, "_")`:
every character outside `[A-Za-z0-9_]` is replaced by an underscore. -/
def sanitizeClusterName (s : String) : String :=
  String.mk (s.data.map (fun c => if connectionStringNameChar c then c else '_'))

/-- Mirrors the address-collection loop of `generateInitialClusterFile`:
the first address is preceded by `"@"`, later ones by `","`, and each is the
pod IP followed by `":4500"`. -/
def addCoordinatorAddresses : List String → Bool → String → String
  | [], _, acc => acc
  | ip :: rest, isFirst, acc =>
      addCoordinatorAddresses rest false
        (acc ++ (if isFirst then "@" else ",") ++ ip ++ ":4500")

/-- The slice of the cluster object read and written by the bootstrap step. -/
structure GICCluster where
  name : String
  connectionString : String
deriving DecidableEq, Repr

/-- The bootstrap step: returns the (possibly updated) cluster object and an
optional error.  On the error path the cluster is returned unchanged, exactly
as the Go code returns before any mutation. -/
def generateInitialClusterFile (c : GICCluster) (coordCount : Nat)
    (podIPs : List String) : GICCluster × Option String :=
  if c.connectionString = "" then
    if podIPs.length < coordCount then
      (c, some "Cannot find enough pods to recruit coordinators")
    else
      let cs := addCoordinatorAddresses (podIPs.take coordCount) true
        (sanitizeClusterName c.name ++ ":init")
      ({ c with connectionString := cs }, none)
  else (c, none)

/-- Comma-separated join, following the claim's form
`"{addr1},{addr2},...{addrN}"`. -/
def joinComma : List String → String
  | [] => ""
  | [x] => x
  | x :: y :: xs => x ++ "," ++ joinComma (y :: xs)

/-- Trailing comma-separated continuation of the address list. -/
def commaTail : List String → String
  | [] => ""
  | ip :: rest => "," ++ ip ++ ":4500" ++ commaTail rest

theorem addCoordinatorAddresses_false (l : List String) :
    ∀ acc, addCoordinatorAddresses l false acc = acc ++ commaTail l := by
  induction l with
  | nil => intro acc; simp [addCoordinatorAddresses, commaTail, String.append_empty]
  | cons ip rest ih =>
    intro acc
    show addCoordinatorAddresses rest false (acc ++ "," ++ ip ++ ":4500")
        = acc ++ ("," ++ ip ++ ":4500" ++ commaTail rest)
    rw [ih]
    simp only [String.append_assoc]

theorem joinComma_addresses (x : String) (xs : List String) :
    joinComma ((x :: xs).map (fun ip => ip ++ ":4500"))
      = x ++ ":4500" ++ commaTail xs := by
  induction xs generalizing x with
  | nil => simp [joinComma, commaTail, String.append_empty]
  | cons y ys ih =>
    show x ++ ":4500" ++ "," ++ joinComma ((y :: ys).map (fun ip => ip ++ ":4500"))
        = x ++ ":4500" ++ ("," ++ y ++ ":4500" ++ commaTail ys)
    rw [ih y]
    simp only [String.append_assoc]

theorem addCoordinatorAddresses_spec (x : String) (xs : List String) (acc : String) :
    addCoordinatorAddresses (x :: xs) true acc
      = acc ++ "@" ++ joinComma ((x :: xs).map (fun ip => ip ++ ":4500")) := by
  show addCoordinatorAddresses xs false (acc ++ "@" ++ x ++ ":4500")
      = acc ++ "@" ++ joinComma ((x :: xs).map (fun ip => ip ++ ":4500"))
  rw [addCoordinatorAddresses_false, joinComma_addresses]
  simp only [String.append_assoc]

theorem take_ne_nil_of_lt {α : Type} (l : List α) (n : Nat) (h0 : 0 < n)
    (hle : n ≤ l.length) : ∃ x xs, l.take n = x :: xs := by
  match hm : l.take n with
  | [] =>
    exfalso
    have hlen : (l.take n).length = min n l.length := List.length_take n l
    rw [hm] at hlen
    simp at hlen
    omega
  | x :: xs => exact ⟨x, xs, rfl⟩

/-- C2: with an empty connection string and at least the desired number of
storage pods, the bootstrap step builds and persists a connection string of
the form "{sanitizedClusterName}:init@{addr1},...,{addrN}" with every
character of the cluster name outside [A-Za-z0-9_] replaced and each address
being the pod IP followed by ":4500"; with a non-empty connection string it
does nothing; and the literal 3-pod scenario produces
"my_cluster:init@10.0.0.1:4500,10.0.0.2:4500,10.0.0.3:4500". -/
theorem claim_C2_generateInitialClusterFile :
    ∀ (c : GICCluster) (coordCount : Nat) (podIPs : List String),
      (c.connectionString = "" → 0 < coordCount → coordCount ≤ podIPs.length →
        generateInitialClusterFile c coordCount podIPs =
          ({ c with connectionString :=
              sanitizeClusterName c.name ++ ":init@" ++
                joinComma ((podIPs.take coordCount).map (fun ip => ip ++ ":4500")) },
            none)) ∧
      (c.connectionString ≠ "" →
        generateInitialClusterFile c coordCount podIPs = (c, none)) ∧
      generateInitialClusterFile ⟨"my-cluster", ""⟩ 3
          ["10.0.0.1", "10.0.0.2", "10.0.0.3"] =
        (⟨"my-cluster", "my_cluster:init@10.0.0.1:4500,10.0.0.2:4500,10.0.0.3:4500"⟩,
          none) := by
  intro c coordCount podIPs
  refine ⟨?_, ?_, ?_⟩
  · intro h1 h2 h3
    obtain ⟨x, xs, hx⟩ := take_ne_nil_of_lt podIPs coordCount h2 h3
    unfold generateInitialClusterFile
    rw [if_pos h1, if_neg (by omega : ¬ podIPs.length < coordCount)]
    simp only [hx]
    rw [addCoordinatorAddresses_spec]
    have hs : sanitizeClusterName c.name ++ ":init" ++ "@"
        = sanitizeClusterName c.name ++ ":init@" := by
      rw [String.append_assoc]
      exact congrArg (fun t => sanitizeClusterName c.name ++ t) (by decide)
    rw [hs]
  · intro h1
    unfold generateInitialClusterFile
    rw [if_neg h1]
  · rfl

/-- Witness for C2, discharging both hypothesis sets at concrete inputs. -/
theorem claim_C2_generateInitialClusterFile_witness :
    generateInitialClusterFile ⟨"demo", ""⟩ 1 ["1.2.3.4", "5.6.7.8"] =
        ({ name := "demo", connectionString := "demo:init@1.2.3.4:4500" }, none) ∧
      generateInitialClusterFile ⟨"demo", "x:y@z"⟩ 1 ["1.2.3.4"] =
        (⟨"demo", "x:y@z"⟩, none) := by
  constructor
  · have h := (claim_C2_generateInitialClusterFile ⟨"demo", ""⟩ 1
      ["1.2.3.4", "5.6.7.8"]).1 rfl (by decide) (by decide)
    rw [h]
    rfl
  · exact (claim_C2_generateInitialClusterFile ⟨"demo", "x:y@z"⟩ 1
      ["1.2.3.4"]).2.1 (by decide)

/-- C6: with an empty connection string and fewer listed storage pods than
the desired coordinator count, the bootstrap step returns an error and the
connection string is left unchanged (empty): no partial connection string is
persisted. -/
theorem claim_C6_generateInitialClusterFile_insufficient (c : GICCluster)
    (coordCount : Nat) (podIPs : List String) (hcs : c.connectionString = "")
    (hlt : podIPs.length < coordCount) :
    generateInitialClusterFile c coordCount podIPs =
        (c, some "Cannot find enough pods to recruit coordinators") ∧
      (generateInitialClusterFile c coordCount podIPs).1.connectionString = "" := by
  unfold generateInitialClusterFile
  rw [if_pos hcs, if_pos hlt]
  exact ⟨rfl, hcs⟩

/-- Witness for C6 at a concrete under-populated cluster. -/
theorem claim_C6_generateInitialClusterFile_insufficient_witness :
    generateInitialClusterFile ⟨"my-cluster", ""⟩ 3 ["10.0.0.1"] =
        (⟨"my-cluster", ""⟩, some "Cannot find enough pods to recruit coordinators") ∧
      (generateInitialClusterFile ⟨"my-cluster", ""⟩ 3 ["10.0.0.1"]).1.connectionString
        = "" :=
  claim_C6_generateInitialClusterFile_insufficient ⟨"my-cluster", ""⟩ 3
    ["10.0.0.1"] rfl (by decide)

/-! ## Old-controller desired-state builders

Embeds `GetPodSpec` (lines 482-537), `GetConfigMap` (391-429) and
`GetMonitorConf` (432-453) of
`src/pkg/controller/foundationdbcluster/foundationdbcluster_controller.go`. -/

structure EnvVar where
  name : String
  value : String
deriving DecidableEq, Repr

structure VolumeMount where
  name : String
  mountPath : String
deriving DecidableEq, Repr

inductive VolumeSource where
  | emptyDir : VolumeSource
  | configMap (name : String) (items : List (String × String)) : VolumeSource
deriving DecidableEq, Repr

structure Volume where
  name : String
  source : VolumeSource
deriving DecidableEq, Repr

structure Container where
  name : String
  image : String
  env : List EnvVar
  command : List String
  args : List String
  volumeMounts : List VolumeMount
deriving DecidableEq, Repr

structure PodSpec where
  initContainers : List Container
  containers : List Container
  volumes : List Volume
deriving DecidableEq, Repr

/-- The slice of the cluster object the old-controller builders read. -/
structure FDBCluster where
  name : String
  version : String
  connectionString : String
deriving DecidableEq, Repr

/-- `var DockerImageRoot = "foundationdb"`. -/
def DockerImageRoot : String := "foundationdb"

/-- `var processClasses = []string{"storage"}`. -/
def processClasses : List String := ["storage"]

/-- Embeds `GetPodSpec(cluster, processClass)` from the old controller.  The
sidecar container shares the init container's image and volume mounts and
drops the first env var (`Env[1:]`). -/
def GetPodSpec (cluster : FDBCluster) (processClass : String) : PodSpec :=
  let mainContainer : Container :=
    { name := "foundationdb"
      image := DockerImageRoot ++ "/foundationdb:" ++ cluster.version
      env := [⟨"FDB_CLUSTER_FILE", "/var/dynamic-conf/fdb.cluster"⟩]
      command := ["sh", "-c"]
      args := ["fdbmonitor --conffile /var/dynamic-conf/fdbmonitor.conf" ++
        " --lockfile /var/fdb/fdbmonitor.lockfile"]
      volumeMounts := [⟨"data", "/var/fdb/data"⟩,
        ⟨"dynamic-conf", "/var/dynamic-conf"⟩,
        ⟨"fdb-trace-logs", "/var/log/fdb-trace-logs"⟩] }
  let initContainer : Container :=
    { name := "foundationdb-kubernetes-init"
      image := DockerImageRoot ++ "/foundationdb-kubernetes-sidecar:" ++ cluster.version
      env := [⟨"COPY_ONCE", "1"⟩, ⟨"SIDECAR_CONF_DIR", "/var/input-files"⟩]
      command := []
      args := []
      volumeMounts := [⟨"config-map", "/var/input-files"⟩,
        ⟨"dynamic-conf", "/var/output-files"⟩] }
  let sidecarContainer : Container :=
    { name := "foundationdb-kubernetes-sidecar"
      image := initContainer.image
      env := initContainer.env.drop 1
      command := []
      args := []
      volumeMounts := initContainer.volumeMounts }
  { initContainers := [initContainer]
    containers := [mainContainer, sidecarContainer]
    volumes := [⟨"data", VolumeSource.emptyDir⟩,
      ⟨"dynamic-conf", VolumeSource.emptyDir⟩,
      ⟨"config-map", VolumeSource.configMap (cluster.name ++ "-config")
        [("fdbmonitor-conf-" ++ processClass, "fdbmonitor.conf"),
         ("cluster-file", "fdb.cluster"),
         ("sidecar-conf", "config.json")]⟩,
      ⟨"fdb-trace-logs", VolumeSource.emptyDir⟩] }

/-- Embeds `GetMonitorConf`: the fixed conf lines joined with newlines. -/
def GetMonitorConf (cluster : FDBCluster) (processClass : String) : String :=
  String.intercalate "\n"
    ["[general]",
     "kill_on_configuration_change = false",
     "restart_delay = 60",
     "[fdbserver.1]",
     "command = /var/dynamic-conf/bin/" ++ cluster.version ++ "/fdbserver",
     "cluster_file = /var/fdb/data/fdb.cluster",
     "seed_cluster_file = /var/dynamic-conf/fdb.cluster",
     "public_address = $FDB_PUBLIC_IP:4500",
     "class = " ++ processClass,
     "datadir = /var/fdb/data",
     "logdir = /var/log/fdb-trace-logs",
     "loggroup = " ++ cluster.name,
     "locality_machineid = $HOSTNAME",
     "locality_zoneid = $HOSTNAME"]

/-- Serialization of the sidecar conf map: `json.Marshal` emits object keys
in sorted order, so the output string is fixed. -/
def sidecarConfJson : String :=
  "\x7b\"COPY_BINARIES\":[\"fdbserver\",\"fdbcli\"],\"COPY_FILES\":[\"fdb.cluster\"],\"COPY_LIBRARIES\":[],\"INPUT_MONITOR_CONF\":\"fdbmonitor.conf\"\x7d"

/-- The config map object built by `GetConfigMap`: name, labels, and data
entries in their construction order. -/
structure ConfigMapObj where
  objName : String
  labels : List (String × String)
  data : List (String × String)
deriving DecidableEq, Repr

/-- Embeds `GetConfigMap(cluster)` from the old controller. -/
def GetConfigMap (cluster : FDBCluster) : ConfigMapObj :=
  let connectionString := cluster.connectionString
  { objName := cluster.name ++ "-config"
    labels := [("fdb-cluster-name", cluster.name)]
    data := ("cluster-file", connectionString) ::
      processClasses.map (fun pc =>
        ("fdbmonitor-conf-" ++ pc,
          if connectionString = "" then "" else GetMonitorConf cluster pc)) ++
      [("sidecar-conf", sidecarConfJson)] }

/-- C9: the desired-state builders are deterministic — two calls with
identical cluster specs and process classes produce identical pod specs
(with container, env and volume lists in the same fixed order) and identical
config-map data, so any hash derived from the output is identical across
runs.  (The old-controller `GetPodSpec` under `src/` takes no numeric id, so
equality of ids is vacuous here.) -/
theorem claim_C9_builders_deterministic :
    ∀ (c1 c2 : FDBCluster) (pc1 pc2 : String), c1 = c2 → pc1 = pc2 →
      GetPodSpec c1 pc1 = GetPodSpec c2 pc2 ∧ GetConfigMap c1 = GetConfigMap c2 := by
  intro c1 c2 pc1 pc2 h1 h2
  subst h1
  subst h2
  exact ⟨rfl, rfl⟩

/-- Witness for C9 at a concrete cluster. -/
theorem claim_C9_builders_deterministic_witness :
    GetPodSpec ⟨"operator-test", "6.2.20", ""⟩ "storage"
        = GetPodSpec ⟨"operator-test", "6.2.20", ""⟩ "storage" ∧
      GetConfigMap ⟨"operator-test", "6.2.20", ""⟩
        = GetConfigMap ⟨"operator-test", "6.2.20", ""⟩ :=
  claim_C9_builders_deterministic _ _ _ _ rfl rfl

/-! ## The reconciliation pipeline

Embeds the step sequencing of `Reconcile` (controller lines 110-151).  Each
step's body performs Kubernetes API calls, so steps are modelled as state
transformers returning the mutated world state together with an optional
error; the sequencing below is the literal translation of the early-return
chain in the Go code. -/

/-- The five reconciliation steps, in the source's field order. -/
structure ReconcileSteps (σ ε : Type) where
  setDefaultValues : σ → σ × Option ε
  updateConfigMap : σ → σ × Option ε
  addPods : σ → σ × Option ε
  generateInitialClusterFile : σ → σ × Option ε
  updateDatabaseConfiguration : σ → σ × Option ε

/-- Runs one step unless a previous step already returned an error. -/
def runReconcileStep {σ ε : Type} (acc : σ × Option ε)
    (step : σ → σ × Option ε) : σ × Option ε :=
  match acc with
  | (s, none) => step s
  | (s, some e) => (s, some e)

/-- The reconcile pass: the five steps in the fixed source order, with an
early return on the first error. -/
def Reconcile {σ ε : Type} (r : ReconcileSteps σ ε) (s : σ) : σ × Option ε :=
  runReconcileStep (runReconcileStep (runReconcileStep (runReconcileStep
    (r.setDefaultValues s) r.updateConfigMap) r.addPods)
    r.generateInitialClusterFile) r.updateDatabaseConfiguration

/-- C8: every reconcile pass runs setDefaultValues, updateConfigMap,
addPods, generateInitialClusterFile, updateDatabaseConfiguration in that
fixed order; an error from any step makes the pass return that error with
the state as the failing step left it — later steps are not executed (the
result does not depend on them) and no partial side effects are undone. -/
theorem claim_C8_pipeline_order {σ ε : Type} (r : ReconcileSteps σ ε) (s : σ) :
    (∀ s1 s2 s3 s4 s5 : σ,
      r.setDefaultValues s = (s1, none) →
      r.updateConfigMap s1 = (s2, none) →
      r.addPods s2 = (s3, none) →
      r.generateInitialClusterFile s3 = (s4, none) →
      r.updateDatabaseConfiguration s4 = (s5, none) →
      Reconcile r s = (s5, none)) ∧
    (∀ (s1 : σ) (e : ε), r.setDefaultValues s = (s1, some e) →
      Reconcile r s = (s1, some e)) ∧
    (∀ (s1 s2 : σ) (e : ε), r.setDefaultValues s = (s1, none) →
      r.updateConfigMap s1 = (s2, some e) →
      Reconcile r s = (s2, some e)) ∧
    (∀ (s1 s2 s3 : σ) (e : ε), r.setDefaultValues s = (s1, none) →
      r.updateConfigMap s1 = (s2, none) →
      r.addPods s2 = (s3, some e) →
      Reconcile r s = (s3, some e)) ∧
    (∀ (s1 s2 s3 s4 : σ) (e : ε), r.setDefaultValues s = (s1, none) →
      r.updateConfigMap s1 = (s2, none) →
      r.addPods s2 = (s3, none) →
      r.generateInitialClusterFile s3 = (s4, some e) →
      Reconcile r s = (s4, some e)) ∧
    (∀ (s1 s2 s3 s4 s5 : σ) (e : ε), r.setDefaultValues s = (s1, none) →
      r.updateConfigMap s1 = (s2, none) →
      r.addPods s2 = (s3, none) →
      r.generateInitialClusterFile s3 = (s4, none) →
      r.updateDatabaseConfiguration s4 = (s5, some e) →
      Reconcile r s = (s5, some e)) := by
  refine ⟨?_, ?_, ?_, ?_, ?_, ?_⟩ <;>
    intros <;> simp_all [Reconcile, runReconcileStep]

/-- Demonstration pipeline used by the C8 witness. -/
def demoSteps : ReconcileSteps Nat String :=
  { setDefaultValues := fun s => (s + 1, none)
    updateConfigMap := fun s => (s + 2, none)
    addPods := fun s => (s * 2, none)
    generateInitialClusterFile := fun s => (s, none)
    updateDatabaseConfiguration := fun s => (s + 10, none) }

/-- Witness for C8 on a concrete pipeline. -/
theorem claim_C8_pipeline_order_witness : Reconcile demoSteps 0 = (16, none) :=
  (claim_C8_pipeline_order demoSteps 0).1 1 3 6 6 16 rfl rfl rfl rfl rfl

/-! ## The addPods step

Embeds `addPods` (controller lines 269-303).  The per-class desired count
(`cluster.DesiredProcessCount`, not among the sources) is an explicit
parameter modelled from the spec.  Pod creation through the Kubernetes API is
modelled by appending to the pod store; the step never lists, deletes or
edits an existing pod. -/

/-- The slice of the cluster object the step reads and writes. -/
structure APCluster where
  name : String
  nextInstanceID : Int
deriving DecidableEq, Repr

/-- A pod as the step sees it: its process-class label and numeric id. -/
structure APPod where
  processClass : String
  id : Int
deriving DecidableEq, Repr

/-- Result of one reconcile pass of the step. -/
structure AddPodsResult where
  cluster : APCluster
  pods : List APPod
  created : List APPod
  clusterUpdated : Bool
deriving DecidableEq, Repr

/-- One iteration of the per-class loop of `addPods`. -/
def addPodsClass (desiredProcessCount : String → Nat) (acc : AddPodsResult)
    (pc : String) : AddPodsResult :=
  let existing := (acc.pods.filter (fun p => p.processClass == pc)).length
  let newCount : Int := (desiredProcessCount pc : Int) - existing
  if newCount > 0 then
    let start : Int :=
      if acc.cluster.nextInstanceID < 1 then 1 else acc.cluster.nextInstanceID
    let newPods := (List.range newCount.toNat).map fun i => APPod.mk pc (start + i)
    { cluster := { acc.cluster with nextInstanceID := start + newCount }
      pods := acc.pods ++ newPods
      created := acc.created ++ newPods
      clusterUpdated := true }
  else acc

/-- The addPods step: the per-class loop over `processClasses`. -/
def addPods (desiredProcessCount : String → Nat) (cluster : APCluster)
    (pods : List APPod) : AddPodsResult :=
  processClasses.foldl (addPodsClass desiredProcessCount) ⟨cluster, pods, [], false⟩

/-- C10: the step only ever creates pods.  When enough pods of the class
exist it performs no mutation at all; otherwise it appends exactly
desired-minus-existing new pods with consecutive ids starting at
max(NextInstanceID, 1), sets NextInstanceID one past the last assigned id,
and persists the cluster object — so NextInstanceID changes only in passes
that created at least one pod. -/
theorem claim_C10_addPods (desiredProcessCount : String → Nat)
    (cluster : APCluster) (pods : List APPod) :
    (desiredProcessCount "storage"
        ≤ (pods.filter (fun p => p.processClass == "storage")).length →
      addPods desiredProcessCount cluster pods = ⟨cluster, pods, [], false⟩) ∧
    ((pods.filter (fun p => p.processClass == "storage")).length
        < desiredProcessCount "storage" →
      addPods desiredProcessCount cluster pods =
        { cluster := { cluster with nextInstanceID :=
            (if cluster.nextInstanceID < 1 then 1 else cluster.nextInstanceID) +
              ((desiredProcessCount "storage"
                - (pods.filter (fun p => p.processClass == "storage")).length : Nat) : Int) }
          pods := pods ++ (List.range (desiredProcessCount "storage"
              - (pods.filter (fun p => p.processClass == "storage")).length)).map
            (fun i => APPod.mk "storage"
              ((if cluster.nextInstanceID < 1 then 1 else cluster.nextInstanceID) + i))
          created := (List.range (desiredProcessCount "storage"
              - (pods.filter (fun p => p.processClass == "storage")).length)).map
            (fun i => APPod.mk "storage"
              ((if cluster.nextInstanceID < 1 then 1 else cluster.nextInstanceID) + i))
          clusterUpdated := true }) := by
  set e := (pods.filter (fun p => p.processClass == "storage")).length with he
  set n := desiredProcessCount "storage" with hn
  constructor
  · intro hle
    show addPodsClass desiredProcessCount ⟨cluster, pods, [], false⟩ "storage"
        = ⟨cluster, pods, [], false⟩
    unfold addPodsClass
    rw [if_neg]
    simp only [← he, ← hn]
    omega
  · intro hlt
    show addPodsClass desiredProcessCount ⟨cluster, pods, [], false⟩ "storage" = _
    unfold addPodsClass
    simp only [← he, ← hn]
    rw [if_pos (by omega : ((n : Int) - e) > 0)]
    have htoNat : ((n : Int) - e).toNat = n - e := by omega
    have hcount : (n : Int) - e = ((n - e : Nat) : Int) := by omega
    rw [htoNat, hcount]
    rfl

/-- Witness for C10: a pass with one existing pod and a desired count of
three creates ids 5 and 6 and advances NextInstanceID to 7, and a saturated
pass mutates nothing. -/
theorem claim_C10_addPods_witness :
    addPods (fun _ => 3) ⟨"c", 5⟩ [⟨"storage", 1⟩] =
        { cluster := ⟨"c", 7⟩
          pods := [⟨"storage", 1⟩, ⟨"storage", 5⟩, ⟨"storage", 6⟩]
          created := [⟨"storage", 5⟩, ⟨"storage", 6⟩]
          clusterUpdated := true } ∧
      addPods (fun _ => 1) ⟨"c", 5⟩ [⟨"storage", 1⟩] =
        ⟨⟨"c", 5⟩, [⟨"storage", 1⟩], [], false⟩ := by
  constructor
  · have h := (claim_C10_addPods (fun _ => 3) ⟨"c", 5⟩ [⟨"storage", 1⟩]).2
      (by decide)
    rw [h]
    rfl
  · exact (claim_C10_addPods (fun _ => 1) ⟨"c", 5⟩ [⟨"storage", 1⟩]).1 (by decide)

/-! ## ReplaceMisconfiguredPods

Embeds `ReplaceMisconfiguredPods.Reconcile` from
`replace_misconfigured_pods.go` (part_001 lines 2465-2583).  The hash of the
freshly computed desired pod spec (`GetPodSpecHash`, not among the sources)
and the hash of the desired volume claim (`GetJSONHash(GetPvc(...).Spec)`)
are oracle parameters indexed by process class and numeric id.  The
pending-removal state stored per instance is irrelevant to the claims, so
`PendingRemovals` is modelled as the list of its keys, with insertion
appending the key. -/

/-- The slice of the cluster object the step reads. -/
structure RMCluster where
  instanceIDPfx : String
  updatePodsByReplacement : Bool
deriving DecidableEq, Repr

/-- Modelled from the spec: `getInstanceID(cluster, processClass, idNum)`
(missing from the sources) yields the §4.1 identifier of the position under
the cluster's instance-id prefix; the pod-name part of its Go return value is
discarded by the caller. -/
def getInstanceID (c : RMCluster) (processClass : String) (idNum : Nat) : String :=
  InstanceID c.instanceIDPfx processClass idNum

/-- An instance as the step sees it: whether a pod backs it, its id label,
its process-class label, and its stamped last-applied-spec hash. -/
structure RInstance where
  hasPod : Bool
  instanceID : String
  processClass : String
  lastSpecHash : String
deriving DecidableEq, Repr

/-- A volume claim as the step sees it. -/
structure RPvc where
  ownedByCluster : Bool
  instanceID : String
  processClass : String
  lastSpecHash : String
deriving DecidableEq, Repr

/-- The `needsRemoval` computation of the instance loop (lines 2543-2563). -/
def instNeedsRemoval (c : RMCluster) (specHash : String → Nat → String)
    (inst : RInstance) (idNum : Nat) : Bool :=
  (inst.instanceID != getInstanceID c inst.processClass idNum) ||
    (c.updatePodsByReplacement &&
      (inst.lastSpecHash != specHash inst.processClass idNum))

/-- The volume-claim loop (lines 2480-2520).  The removal branch mirrors the
source's `pvc.Annotations[LastSpecKey] != pvcHash && false` guard verbatim. -/
def processPvcs (pvcHash : String → Nat → String) :
    List RPvc → List String → Bool → Except String (List String × Bool)
  | [], removals, hasNew => Except.ok (removals, hasNew)
  | pvc :: rest, removals, hasNew =>
    if !pvc.ownedByCluster then processPvcs pvcHash rest removals hasNew
    else if pvc.instanceID ∈ removals then processPvcs pvcHash rest removals hasNew
    else
      match ParseInstanceID pvc.instanceID with
      | Except.error e => Except.error e
      | Except.ok (_, idNum) =>
        if (pvc.lastSpecHash != pvcHash pvc.processClass idNum) && false then
          processPvcs pvcHash rest (removals ++ [pvc.instanceID]) true
        else processPvcs pvcHash rest removals hasNew

/-- The instance loop (lines 2527-2570). -/
def processInstances (c : RMCluster) (specHash : String → Nat → String) :
    List RInstance → List String → Bool → Except String (List String × Bool)
  | [], removals, hasNew => Except.ok (removals, hasNew)
  | inst :: rest, removals, hasNew =>
    if !inst.hasPod then processInstances c specHash rest removals hasNew
    else if inst.instanceID ∈ removals then
      processInstances c specHash rest removals hasNew
    else
      match ParseInstanceID inst.instanceID with
      | Except.error e => Except.error e
      | Except.ok (_, idNum) =>
        if instNeedsRemoval c specHash inst idNum then
          processInstances c specHash rest (removals ++ [inst.instanceID]) true
        else processInstances c specHash rest removals hasNew

/-- Outcome of one run: the pending-removal keys and whether the cluster
status was written (the source writes it exactly when `hasNewRemovals`). -/
structure RMPOutcome where
  removals : List String
  statusUpdated : Bool
deriving DecidableEq, Repr

/-- One run of the step: the volume-claim loop, then the instance loop, then
the at-most-one status write. -/
def ReplaceMisconfiguredPods (c : RMCluster)
    (pvcHash specHash : String → Nat → String) (pvcs : List RPvc)
    (instances : List RInstance) (removals0 : List String) :
    Except String RMPOutcome :=
  match processPvcs pvcHash pvcs removals0 false with
  | Except.error e => Except.error e
  | Except.ok (r1, new1) =>
    match processInstances c specHash instances r1 new1 with
    | Except.error e => Except.error e
    | Except.ok (r2, new2) => Except.ok ⟨r2, new2⟩

theorem processPvcs_noop (pvcHash : String → Nat → String) :
    ∀ (pvcs : List RPvc) (removals : List String) (hasNew : Bool),
    (∀ pvc ∈ pvcs, pvc.ownedByCluster = true → pvc.instanceID ∉ removals →
      ∃ pr, ParseInstanceID pvc.instanceID = Except.ok pr) →
    processPvcs pvcHash pvcs removals hasNew = Except.ok (removals, hasNew) := by
  intro pvcs
  induction pvcs with
  | nil => intro removals hasNew _; rfl
  | cons pvc rest ih =>
    intro removals hasNew hp
    have ihr := ih removals hasNew
      (fun q hq => hp q (List.mem_cons_of_mem _ hq))
    by_cases hOwn : pvc.ownedByCluster = true
    · by_cases hMem : pvc.instanceID ∈ removals
      · simp only [processPvcs, hOwn, Bool.not_true, Bool.false_eq_true,
          if_false, if_pos hMem]
        exact ihr
      · obtain ⟨⟨cls, idNum⟩, hpr⟩ := hp pvc (List.mem_cons_self _ _) hOwn hMem
        simp only [processPvcs, hOwn, Bool.not_true, Bool.false_eq_true,
          if_false, if_neg hMem, hpr, Bool.and_false, if_false]
        exact ihr
    · have hOwn2 : pvc.ownedByCluster = false := by
        revert hOwn; cases pvc.ownedByCluster <;> simp
      simp only [processPvcs, hOwn2, Bool.not_false, if_true]
      exact ihr

/-- C3: the volume-claim hash mismatch never, on its own, adds a pending
removal — the PVC-hash removal branch is dead under the source's
`&& false` guard: the PVC loop always returns the removal set unchanged
without a status-update flag, and the outcome of the whole step does not
depend on the listed volume claims. -/
theorem claim_C3_pvc_branch_unreachable (c : RMCluster)
    (pvcHash specHash : String → Nat → String) (pvcs : List RPvc)
    (instances : List RInstance) (removals : List String) (hasNew : Bool)
    (hp : ∀ pvc ∈ pvcs, pvc.ownedByCluster = true → pvc.instanceID ∉ removals →
      ∃ pr, ParseInstanceID pvc.instanceID = Except.ok pr) :
    processPvcs pvcHash pvcs removals hasNew = Except.ok (removals, hasNew) ∧
      ReplaceMisconfiguredPods c pvcHash specHash pvcs instances removals =
        ReplaceMisconfiguredPods c pvcHash specHash [] instances removals := by
  refine ⟨processPvcs_noop pvcHash pvcs removals hasNew hp, ?_⟩
  unfold ReplaceMisconfiguredPods
  rw [processPvcs_noop pvcHash pvcs removals false hp]
  rfl

/-- Witness for C3 at a concrete claim whose stamped hash differs from the
desired hash. -/
theorem claim_C3_pvc_branch_unreachable_witness :
    processPvcs (fun _ _ => "freshhash")
        [⟨true, "storage-1", "storage", "stalehash"⟩] [] false =
      Except.ok ([], false) :=
  (claim_C3_pvc_branch_unreachable ⟨"", false⟩ (fun _ _ => "freshhash")
    (fun _ _ => "freshhash") [⟨true, "storage-1", "storage", "stalehash"⟩] [] [] false
    (fun pvc hpvc _ _ => by
      rw [List.mem_singleton.mp hpvc]
      exact ⟨("storage", 1), rfl⟩)).1

/-- The add condition of the instance loop, in propositional form: the
identifier differs from the one its (class, position) would receive, or
in-place updates are disallowed and the stamped spec hash differs from the
freshly computed one. -/
def instanceNeedsRemovalProp (c : RMCluster) (specHash : String → Nat → String)
    (inst : RInstance) : Prop :=
  ∃ cls idNum, ParseInstanceID inst.instanceID = Except.ok (cls, idNum) ∧
    (inst.instanceID ≠ getInstanceID c inst.processClass idNum ∨
      (c.updatePodsByReplacement = true ∧
        inst.lastSpecHash ≠ specHash inst.processClass idNum))

theorem instNeedsRemoval_iff (c : RMCluster) (specHash : String → Nat → String)
    (inst : RInstance) (cls : String) (idNum : Nat)
    (hpr : ParseInstanceID inst.instanceID = Except.ok (cls, idNum)) :
    (instNeedsRemoval c specHash inst idNum = true ↔
      instanceNeedsRemovalProp c specHash inst) := by
  constructor
  · intro h
    simp only [instNeedsRemoval, Bool.or_eq_true, Bool.and_eq_true,
      bne_iff_ne] at h
    exact ⟨cls, idNum, hpr, h⟩
  · rintro ⟨cls2, idNum2, hpr2, h⟩
    rw [hpr] at hpr2
    injection hpr2 with hpair
    have hnum : idNum2 = idNum := (congrArg Prod.snd hpair).symm
    subst hnum
    simp only [instNeedsRemoval, Bool.or_eq_true, Bool.and_eq_true, bne_iff_ne]
    exact h

theorem processInstances_spec (c : RMCluster) (specHash : String → Nat → String) :
    ∀ (insts : List RInstance) (removals : List String) (hasNew : Bool),
    (∀ inst ∈ insts, inst.hasPod = true →
      ∃ pr, ParseInstanceID inst.instanceID = Except.ok pr) →
    ∃ r2 n2, processInstances c specHash insts removals hasNew = Except.ok (r2, n2) ∧
      (∃ t, r2 = removals ++ t) ∧
      (∀ x, x ∈ r2 ↔ x ∈ removals ∨ ∃ inst ∈ insts, inst.hasPod = true ∧
        inst.instanceID = x ∧ instanceNeedsRemovalProp c specHash inst) ∧
      (n2 = true ↔ hasNew = true ∨ r2 ≠ removals) ∧
      (removals.Nodup → r2.Nodup) := by
  intro insts
  induction insts with
  | nil =>
    intro removals hasNew _
    refine ⟨removals, hasNew, rfl, ⟨[], by simp⟩, ?_, ?_, fun h => h⟩
    · intro x; simp
    · simp
  | cons inst rest ih =>
    intro removals hasNew hp
    have hptail : ∀ i ∈ rest, i.hasPod = true →
        ∃ pr, ParseInstanceID i.instanceID = Except.ok pr :=
      fun i hi => hp i (List.mem_cons_of_mem _ hi)
    by_cases hPod : inst.hasPod = true
    · by_cases hMem : inst.instanceID ∈ removals
      · obtain ⟨r2, n2, heq, hpre, hmem, hnew, hnd⟩ := ih removals hasNew hptail
        refine ⟨r2, n2, ?_, hpre, ?_, hnew, hnd⟩
        · simp only [processInstances, hPod, Bool.not_true, if_pos hMem]
          simpa using heq
        · intro x
          rw [hmem x]
          constructor
          · rintro (h | ⟨i, hi, hrest⟩)
            · exact Or.inl h
            · exact Or.inr ⟨i, List.mem_cons_of_mem _ hi, hrest⟩
          · rintro (h | ⟨i, hi, hPodi, hidi, hcond⟩)
            · exact Or.inl h
            · rcases List.mem_cons.mp hi with rfl | hi2
              · exact Or.inl (hidi ▸ hMem)
              · exact Or.inr ⟨i, hi2, hPodi, hidi, hcond⟩
      · obtain ⟨⟨cls, idNum⟩, hpr⟩ := hp inst (List.mem_cons_self _ _) hPod
        by_cases hNeed : instNeedsRemoval c specHash inst idNum = true
        · obtain ⟨r2, n2, heq, ⟨t, ht⟩, hmem, hnew, hnd⟩ :=
            ih (removals ++ [inst.instanceID]) true hptail
          refine ⟨r2, n2, ?_, ?_, ?_, ?_, ?_⟩
          · simp only [processInstances, hPod, Bool.not_true, if_neg hMem, hpr,
              if_pos hNeed]
            simpa using heq
          · exact ⟨inst.instanceID :: t, by rw [ht]; simp⟩
          · intro x
            rw [hmem x]
            constructor
            · rintro (h | ⟨i, hi, hrest⟩)
              · rcases List.mem_append.mp h with h2 | h2
                · exact Or.inl h2
                · exact Or.inr ⟨inst, List.mem_cons_self _ _, hPod,
                    (List.mem_singleton.mp h2).symm,
                    (instNeedsRemoval_iff c specHash inst cls idNum hpr).mp hNeed⟩
              · exact Or.inr ⟨i, List.mem_cons_of_mem _ hi, hrest⟩
            · rintro (h | ⟨i, hi, hPodi, hidi, hcond⟩)
              · exact Or.inl (List.mem_append.mpr (Or.inl h))
              · rcases List.mem_cons.mp hi with rfl | hi2
                · exact Or.inl (List.mem_append.mpr (Or.inr
                    (List.mem_singleton.mpr hidi.symm)))
                · exact Or.inr ⟨i, hi2, hPodi, hidi, hcond⟩
          · have hlen : removals.length < r2.length := by
              rw [ht]
              simp only [List.append_assoc, List.length_append,
                List.length_singleton]
              omega
            constructor
            · intro _
              refine Or.inr (fun hcontra => ?_)
              rw [hcontra] at hlen
              omega
            · intro _
              exact hnew.mpr (Or.inl rfl)
          · intro hnd0
            apply hnd
            exact List.Nodup.append hnd0 (List.nodup_singleton _)
              (List.disjoint_singleton.mpr hMem)
        · obtain ⟨r2, n2, heq, hpre, hmem, hnew, hnd⟩ := ih removals hasNew hptail
          refine ⟨r2, n2, ?_, hpre, ?_, hnew, hnd⟩
          · simp only [processInstances, hPod, Bool.not_true, if_neg hMem, hpr,
              if_neg hNeed]
            simpa using heq
          · intro x
            rw [hmem x]
            constructor
            · rintro (h | ⟨i, hi, hrest⟩)
              · exact Or.inl h
              · exact Or.inr ⟨i, List.mem_cons_of_mem _ hi, hrest⟩
            · rintro (h | ⟨i, hi, hPodi, hidi, hcond⟩)
              · exact Or.inl h
              · rcases List.mem_cons.mp hi with rfl | hi2
                · exact absurd ((instNeedsRemoval_iff c specHash i cls idNum
                    hpr).mpr hcond) hNeed
                · exact Or.inr ⟨i, hi2, hPodi, hidi, hcond⟩
    · have hPod2 : inst.hasPod = false := by
        revert hPod; cases inst.hasPod <;> simp
      obtain ⟨r2, n2, heq, hpre, hmem, hnew, hnd⟩ := ih removals hasNew hptail
      refine ⟨r2, n2, ?_, hpre, ?_, hnew, hnd⟩
      · simp only [processInstances, hPod2, Bool.not_false, if_true]
        exact heq
      · intro x
        rw [hmem x]
        constructor
        · rintro (h | ⟨i, hi, hrest⟩)
          · exact Or.inl h
          · exact Or.inr ⟨i, List.mem_cons_of_mem _ hi, hrest⟩
        · rintro (h | ⟨i, hi, hPodi, hidi, hcond⟩)
          · exact Or.inl h
          · rcases List.mem_cons.mp hi with rfl | hi2
            · rw [hPod2] at hPodi; cases hPodi
            · exact Or.inr ⟨i, hi2, hPodi, hidi, hcond⟩

theorem processInstances_stable (c : RMCluster) (specHash : String → Nat → String) :
    ∀ (insts : List RInstance) (removals : List String) (hasNew : Bool),
    (∀ inst ∈ insts, inst.hasPod = true →
      ∃ pr, ParseInstanceID inst.instanceID = Except.ok pr) →
    (∀ inst ∈ insts, inst.hasPod = true →
      instanceNeedsRemovalProp c specHash inst → inst.instanceID ∈ removals) →
    processInstances c specHash insts removals hasNew
      = Except.ok (removals, hasNew) := by
  intro insts
  induction insts with
  | nil => intro removals hasNew _ _; rfl
  | cons inst rest ih =>
    intro removals hasNew hp hstable
    have hptail : ∀ i ∈ rest, i.hasPod = true →
        ∃ pr, ParseInstanceID i.instanceID = Except.ok pr :=
      fun i hi => hp i (List.mem_cons_of_mem _ hi)
    have hstail : ∀ i ∈ rest, i.hasPod = true →
        instanceNeedsRemovalProp c specHash i → i.instanceID ∈ removals :=
      fun i hi => hstable i (List.mem_cons_of_mem _ hi)
    by_cases hPod : inst.hasPod = true
    · by_cases hMem : inst.instanceID ∈ removals
      · simp only [processInstances, hPod, Bool.not_true, if_pos hMem]
        simpa using ih removals hasNew hptail hstail
      · obtain ⟨⟨cls, idNum⟩, hpr⟩ := hp inst (List.mem_cons_self _ _) hPod
        have hNeed : ¬ instNeedsRemoval c specHash inst idNum = true := by
          intro hcontra
          exact hMem (hstable inst (List.mem_cons_self _ _) hPod
            ((instNeedsRemoval_iff c specHash inst cls idNum hpr).mp hcontra))
        simp only [processInstances, hPod, Bool.not_true, if_neg hMem, hpr,
          if_neg hNeed]
        simpa using ih removals hasNew hptail hstail
    · have hPod2 : inst.hasPod = false := by
        revert hPod; cases inst.hasPod <;> simp
      simp only [processInstances, hPod2, Bool.not_false, if_true]
      exact ih removals hasNew hptail hstail

/-- C1: for every currently-running instance not already pending removal,
the step adds it exactly when its identifier differs from the identifier its
(class, numeric id) would receive, or UpdatePodsByReplacement is set and its
stamped spec hash differs from the freshly computed one; an instance already
pending is skipped without re-evaluation, membership never duplicates, the
status is written exactly when something new was added, and re-running the
step on its own output adds nothing and writes no status. -/
theorem claim_C1_replaceMisconfiguredPods (c : RMCluster)
    (pvcHash specHash : String → Nat → String) (pvcs : List RPvc)
    (instances : List RInstance) (removals0 : List String)
    (hpvc : ∀ pvc ∈ pvcs, pvc.ownedByCluster = true →
      pvc.instanceID ∉ removals0 →
      ∃ pr, ParseInstanceID pvc.instanceID = Except.ok pr)
    (hinst : ∀ inst ∈ instances, inst.hasPod = true →
      ∃ pr, ParseInstanceID inst.instanceID = Except.ok pr) :
    ∃ out : RMPOutcome,
      ReplaceMisconfiguredPods c pvcHash specHash pvcs instances removals0
        = Except.ok out ∧
      (∀ x, x ∈ out.removals ↔ x ∈ removals0 ∨ ∃ inst ∈ instances,
        inst.hasPod = true ∧ inst.instanceID = x ∧
        ∃ cls idNum, ParseInstanceID inst.instanceID = Except.ok (cls, idNum) ∧
          (inst.instanceID ≠ getInstanceID c inst.processClass idNum ∨
            (c.updatePodsByReplacement = true ∧
              inst.lastSpecHash ≠ specHash inst.processClass idNum))) ∧
      (out.statusUpdated = true ↔ out.removals ≠ removals0) ∧
      (removals0.Nodup → out.removals.Nodup) ∧
      ReplaceMisconfiguredPods c pvcHash specHash pvcs instances out.removals
        = Except.ok ⟨out.removals, false⟩ := by
  obtain ⟨r2, n2, heq, ⟨t, ht⟩, hmem, hnew, hnd⟩ :=
    processInstances_spec c specHash instances removals0 false hinst
  refine ⟨⟨r2, n2⟩, ?_, ?_, ?_, hnd, ?_⟩
  · simp only [ReplaceMisconfiguredPods,
      processPvcs_noop pvcHash pvcs removals0 false hpvc, heq]
  · exact hmem
  · simpa using hnew
  · have hpvc2 : ∀ pvc ∈ pvcs, pvc.ownedByCluster = true →
        pvc.instanceID ∉ r2 →
        ∃ pr, ParseInstanceID pvc.instanceID = Except.ok pr := by
      intro q hq hOwn hNotMem
      apply hpvc q hq hOwn
      intro hmem0
      exact hNotMem (by rw [ht]; exact List.mem_append.mpr (Or.inl hmem0))
    have hstable : ∀ i ∈ instances, i.hasPod = true →
        instanceNeedsRemovalProp c specHash i → i.instanceID ∈ r2 := by
      intro i hi hPodi hcond
      exact (hmem i.instanceID).mpr (Or.inr ⟨i, hi, hPodi, rfl, hcond⟩)
    simp only [ReplaceMisconfiguredPods,
      processPvcs_noop pvcHash pvcs r2 false hpvc2,
      processInstances_stable c specHash instances r2 false hinst hstable]

/-- Witness for C1: a concrete run adding one instance whose stamped hash is
stale under UpdatePodsByReplacement, and the repeated run adding nothing. -/
theorem claim_C1_replaceMisconfiguredPods_witness :
    ReplaceMisconfiguredPods ⟨"", true⟩ (fun _ _ => "fresh") (fun _ _ => "fresh")
        [] [⟨true, "storage-5", "storage", "stale"⟩] []
      = Except.ok ⟨["storage-5"], true⟩ ∧
    ReplaceMisconfiguredPods ⟨"", true⟩ (fun _ _ => "fresh") (fun _ _ => "fresh")
        [] [⟨true, "storage-5", "storage", "stale"⟩] ["storage-5"]
      = Except.ok ⟨["storage-5"], false⟩ := by
  obtain ⟨out, heq, hmem, hstatus, hnd, hrep⟩ :=
    claim_C1_replaceMisconfiguredPods ⟨"", true⟩ (fun _ _ => "fresh")
      (fun _ _ => "fresh") [] [⟨true, "storage-5", "storage", "stale"⟩] []
      (fun q hq => absurd hq (List.not_mem_nil q))
      (by
        intro i hi _
        rw [List.mem_singleton.mp hi]
        exact ⟨("storage", 5), rfl⟩)
  have h2 : Except.ok (ε := String) out = Except.ok ⟨["storage-5"], true⟩ :=
    heq.symm.trans (by rfl)
  injection h2 with h3
  rw [h3] at heq hrep
  exact ⟨heq, by simpa using hrep⟩

/-! ## UpdateConfigMap dynamic-conf sync

Embeds the per-instance loop of `UpdateConfigMap.Reconcile`
(`src/controllers/update_config_map.go` lines 84-100).  `hash` is the hash of
the current config map; `updatePodDynamicConf` (pushing conf through the
sidecar client, returning synced and an optional error) and
`PodLifecycleManager.UpdateMetadata` (persisting the stamped hash) are oracle
parameters. -/

/-- An instance as the step sees it: its id and the stamped
last-applied-dynamic-conf hash (`""` when the key is absent). -/
structure CMInstance where
  instanceID : String
  lastConfHash : String
deriving DecidableEq, Repr

/-- Outcome of the loop: the persisted per-instance state, the ids whose
sidecars were pushed to, and the step's (done, error) pair. -/
structure SyncOutcome where
  instances : List CMInstance
  pushedIDs : List String
  done : Bool
  error : Option String
deriving DecidableEq, Repr

/-- The loop: an instance whose stamp differs is pushed; on synced success
the new hash is stamped and persisted; a not-synced push or a failed
metadata update returns (false, err) immediately, leaving the remaining
instances untouched. -/
def syncDynamicConf (hash : String) (push : CMInstance → Bool × Option String)
    (updMeta : CMInstance → Option String) :
    List CMInstance → SyncOutcome
  | [] => ⟨[], [], true, none⟩
  | inst :: rest =>
    if inst.lastConfHash = hash then
      let r := syncDynamicConf hash push updMeta rest
      ⟨inst :: r.instances, r.pushedIDs, r.done, r.error⟩
    else if (push inst).1 = false then
      ⟨inst :: rest, [inst.instanceID], false, (push inst).2⟩
    else if (updMeta { inst with lastConfHash := hash }).isSome then
      ⟨inst :: rest, [inst.instanceID], false,
        updMeta { inst with lastConfHash := hash }⟩
    else
      let r := syncDynamicConf hash push updMeta rest
      ⟨{ inst with lastConfHash := hash } :: r.instances,
        inst.instanceID :: r.pushedIDs, r.done, r.error⟩

theorem syncDynamicConf_length (hash : String)
    (push : CMInstance → Bool × Option String)
    (updMeta : CMInstance → Option String) :
    ∀ insts : List CMInstance,
      (syncDynamicConf hash push updMeta insts).instances.length = insts.length := by
  intro insts
  induction insts with
  | nil => rfl
  | cons inst rest ih =>
    by_cases hEq : inst.lastConfHash = hash
    · simp only [syncDynamicConf, if_pos hEq]
      simp [ih]
    · by_cases hPush : (push inst).1 = false
      · simp only [syncDynamicConf, if_neg hEq, if_pos hPush]
      · by_cases hUpd : (updMeta { inst with lastConfHash := hash }).isSome
        · simp only [syncDynamicConf, if_neg hEq, if_neg hPush, if_pos hUpd]
        · simp only [syncDynamicConf, if_neg hEq, if_neg hPush, if_neg hUpd]
          simp [ih]

theorem syncDynamicConf_untouched (hash : String)
    (push : CMInstance → Bool × Option String)
    (updMeta : CMInstance → Option String) :
    ∀ (insts : List CMInstance) (k : Nat) (d : CMInstance),
      (insts.getD k d).lastConfHash = hash →
      (syncDynamicConf hash push updMeta insts).instances.getD k d
        = insts.getD k d := by
  intro insts
  induction insts with
  | nil => intro k d _; rfl
  | cons inst rest ih =>
    intro k d hk
    by_cases hEq : inst.lastConfHash = hash
    · simp only [syncDynamicConf, if_pos hEq]
      match k with
      | 0 => simp
      | k + 1 =>
        simp only [List.getD_cons_succ] at hk ⊢
        exact ih k d hk
    · by_cases hPush : (push inst).1 = false
      · simp only [syncDynamicConf, if_neg hEq, if_pos hPush]
      · by_cases hUpd : (updMeta { inst with lastConfHash := hash }).isSome
        · simp only [syncDynamicConf, if_neg hEq, if_neg hPush, if_pos hUpd]
        · simp only [syncDynamicConf, if_neg hEq, if_neg hPush, if_neg hUpd]
          match k with
          | 0 => exact absurd (by simpa using hk) hEq
          | k + 1 =>
            simp only [List.getD_cons_succ] at hk ⊢
            exact ih k d hk

theorem syncDynamicConf_pushed_sub (hash : String)
    (push : CMInstance → Bool × Option String)
    (updMeta : CMInstance → Option String) :
    ∀ (insts : List CMInstance) (x : String),
      x ∈ (syncDynamicConf hash push updMeta insts).pushedIDs →
      ∃ i ∈ insts, i.instanceID = x ∧ i.lastConfHash ≠ hash := by
  intro insts
  induction insts with
  | nil => intro x hx; simp [syncDynamicConf] at hx
  | cons inst rest ih =>
    intro x hx
    by_cases hEq : inst.lastConfHash = hash
    · simp only [syncDynamicConf, if_pos hEq] at hx
      obtain ⟨i, hi, hrest⟩ := ih x hx
      exact ⟨i, List.mem_cons_of_mem _ hi, hrest⟩
    · by_cases hPush : (push inst).1 = false
      · simp only [syncDynamicConf, if_neg hEq, if_pos hPush,
          List.mem_singleton] at hx
        exact ⟨inst, List.mem_cons_self _ _, hx.symm, hEq⟩
      · by_cases hUpd : (updMeta { inst with lastConfHash := hash }).isSome
        · simp only [syncDynamicConf, if_neg hEq, if_neg hPush, if_pos hUpd,
            List.mem_singleton] at hx
          exact ⟨inst, List.mem_cons_self _ _, hx.symm, hEq⟩
        · simp only [syncDynamicConf, if_neg hEq, if_neg hPush, if_neg hUpd,
            List.mem_cons] at hx
          rcases hx with rfl | hx
          · exact ⟨inst, List.mem_cons_self _ _, rfl, hEq⟩
          · obtain ⟨i, hi, hrest⟩ := ih x hx
            exact ⟨i, List.mem_cons_of_mem _ hi, hrest⟩

theorem syncDynamicConf_success (hash : String)
    (push : CMInstance → Bool × Option String)
    (updMeta : CMInstance → Option String) :
    ∀ insts : List CMInstance,
      (∀ i ∈ insts, i.lastConfHash ≠ hash →
        (push i).1 = true ∧ updMeta { i with lastConfHash := hash } = none) →
      syncDynamicConf hash push updMeta insts =
        ⟨insts.map (fun i => if i.lastConfHash = hash then i
            else { i with lastConfHash := hash }),
          (insts.filter (fun i => i.lastConfHash != hash)).map CMInstance.instanceID,
          true, none⟩ := by
  intro insts
  induction insts with
  | nil => intro _; rfl
  | cons inst rest ih =>
    intro h
    have htail : ∀ i ∈ rest, i.lastConfHash ≠ hash →
        (push i).1 = true ∧ updMeta { i with lastConfHash := hash } = none :=
      fun i hi => h i (List.mem_cons_of_mem _ hi)
    by_cases hEq : inst.lastConfHash = hash
    · simp only [syncDynamicConf, if_pos hEq, ih htail]
      simp [hEq]
    · obtain ⟨hp, hu⟩ := h inst (List.mem_cons_self _ _) hEq
      have hPush : ¬ (push inst).1 = false := by rw [hp]; simp
      have hUpd : ¬ (updMeta { inst with lastConfHash := hash }).isSome = true := by
        rw [hu]; simp
      simp only [syncDynamicConf, if_neg hEq, if_neg hPush, if_neg hUpd, ih htail]
      simp [hEq]

theorem syncDynamicConf_failure (hash : String)
    (push : CMInstance → Bool × Option String)
    (updMeta : CMInstance → Option String) :
    ∀ (pre : List CMInstance) (bad : CMInstance) (post : List CMInstance)
      (e : String),
      (∀ i ∈ pre, i.lastConfHash ≠ hash →
        (push i).1 = true ∧ updMeta { i with lastConfHash := hash } = none) →
      bad.lastConfHash ≠ hash →
      (((push bad).1 = false ∧ (push bad).2 = some e) ∨
        ((push bad).1 = true ∧ updMeta { bad with lastConfHash := hash } = some e)) →
      syncDynamicConf hash push updMeta (pre ++ bad :: post) =
        ⟨(pre.map (fun i => if i.lastConfHash = hash then i
            else { i with lastConfHash := hash })) ++ bad :: post,
          (pre.filter (fun i => i.lastConfHash != hash)).map CMInstance.instanceID
            ++ [bad.instanceID],
          false, some e⟩ := by
  intro pre
  induction pre with
  | nil =>
    intro bad post e _ hBad hFail
    rcases hFail with ⟨hp, he⟩ | ⟨hp, hu⟩
    · simp only [List.nil_append, syncDynamicConf, if_neg hBad, if_pos hp, he]
      simp
    · have hPush : ¬ (push bad).1 = false := by rw [hp]; simp
      have hUpd : (updMeta { bad with lastConfHash := hash }).isSome = true := by
        rw [hu]; rfl
      simp only [List.nil_append, syncDynamicConf, if_neg hBad, if_neg hPush,
        if_pos hUpd, hu]
      simp
  | cons p pre ih =>
    intro bad post e hPre hBad hFail
    have hPreTail : ∀ i ∈ pre, i.lastConfHash ≠ hash →
        (push i).1 = true ∧ updMeta { i with lastConfHash := hash } = none :=
      fun i hi => hPre i (List.mem_cons_of_mem _ hi)
    by_cases hEq : p.lastConfHash = hash
    · simp only [List.cons_append, syncDynamicConf, if_pos hEq]
      simp [hEq, ih bad post e hPreTail hBad hFail]
    · obtain ⟨hp, hu⟩ := hPre p (List.mem_cons_self _ _) hEq
      have hPush : ¬ (push p).1 = false := by rw [hp]; simp
      have hUpd : ¬ (updMeta { p with lastConfHash := hash }).isSome = true := by
        rw [hu]; simp
      simp only [List.cons_append, syncDynamicConf, if_neg hEq, if_neg hPush,
        if_neg hUpd]
      simp [hEq, ih bad post e hPreTail hBad hFail]

/-- C5: in the UpdateConfigMap loop, every listed instance whose stamped
last-applied-dynamic-conf hash differs from the config-map hash is pushed to
and, on success, stamped with the new hash; an instance whose stamp already
equals the hash is left completely untouched; and a failure on any instance
makes the whole step return not-done with that error without touching the
instances after the failing one. -/
theorem claim_C5_updateConfigMap_sync (hash : String)
    (push : CMInstance → Bool × Option String)
    (updMeta : CMInstance → Option String) (insts : List CMInstance) :
    (syncDynamicConf hash push updMeta insts).instances.length = insts.length ∧
    (∀ (k : Nat) (d : CMInstance), (insts.getD k d).lastConfHash = hash →
      (syncDynamicConf hash push updMeta insts).instances.getD k d
        = insts.getD k d) ∧
    ((insts.map CMInstance.instanceID).Nodup →
      ∀ i ∈ insts, i.lastConfHash = hash →
        i.instanceID ∉ (syncDynamicConf hash push updMeta insts).pushedIDs) ∧
    ((∀ i ∈ insts, i.lastConfHash ≠ hash →
        (push i).1 = true ∧ updMeta { i with lastConfHash := hash } = none) →
      (syncDynamicConf hash push updMeta insts).done = true ∧
      (syncDynamicConf hash push updMeta insts).error = none ∧
      (syncDynamicConf hash push updMeta insts).instances
        = insts.map (fun i => if i.lastConfHash = hash then i
            else { i with lastConfHash := hash }) ∧
      (syncDynamicConf hash push updMeta insts).pushedIDs
        = (insts.filter (fun i => i.lastConfHash != hash)).map
            CMInstance.instanceID) ∧
    (∀ (pre : List CMInstance) (bad : CMInstance) (post : List CMInstance)
        (e : String),
      insts = pre ++ bad :: post →
      (∀ i ∈ pre, i.lastConfHash ≠ hash →
        (push i).1 = true ∧ updMeta { i with lastConfHash := hash } = none) →
      bad.lastConfHash ≠ hash →
      (((push bad).1 = false ∧ (push bad).2 = some e) ∨
        ((push bad).1 = true ∧ updMeta { bad with lastConfHash := hash } = some e)) →
      (syncDynamicConf hash push updMeta insts).done = false ∧
      (syncDynamicConf hash push updMeta insts).error = some e ∧
      (syncDynamicConf hash push updMeta insts).instances
        = pre.map (fun i => if i.lastConfHash = hash then i
            else { i with lastConfHash := hash }) ++ bad :: post ∧
      (syncDynamicConf hash push updMeta insts).pushedIDs
        = (pre.filter (fun i => i.lastConfHash != hash)).map CMInstance.instanceID
            ++ [bad.instanceID]) := by
  refine ⟨syncDynamicConf_length hash push updMeta insts,
    fun k d => syncDynamicConf_untouched hash push updMeta insts k d,
    ?_, ?_, ?_⟩
  · intro hnd i hi hEq hmemP
    obtain ⟨j, hj, hjid, hjne⟩ :=
      syncDynamicConf_pushed_sub hash push updMeta insts i.instanceID hmemP
    have hji : j = i := List.inj_on_of_nodup_map hnd hj hi hjid
    rw [hji] at hjne
    exact hjne hEq
  · intro h
    rw [syncDynamicConf_success hash push updMeta insts h]
    exact ⟨rfl, rfl, rfl, rfl⟩
  · intro pre bad post e hsplit hPre hBad hFail
    subst hsplit
    rw [syncDynamicConf_failure hash push updMeta pre bad post e hPre hBad hFail]
    exact ⟨rfl, rfl, rfl, rfl⟩

/-- Witness for C5: a two-instance run where one stamp already matches (left
untouched) and the other is pushed and restamped. -/
theorem claim_C5_updateConfigMap_sync_witness :
    (syncDynamicConf "h2" (fun _ => (true, none)) (fun _ => none)
        [⟨"a", "h2"⟩, ⟨"b", "h1"⟩]).done = true ∧
      (syncDynamicConf "h2" (fun _ => (true, none)) (fun _ => none)
        [⟨"a", "h2"⟩, ⟨"b", "h1"⟩]).instances = [⟨"a", "h2"⟩, ⟨"b", "h2"⟩] ∧
      (syncDynamicConf "h2" (fun _ => (true, none)) (fun _ => none)
        [⟨"a", "h2"⟩, ⟨"b", "h1"⟩]).pushedIDs = ["b"] := by
  obtain ⟨hd, he, hi, hp⟩ :=
    (claim_C5_updateConfigMap_sync "h2" (fun _ => (true, none)) (fun _ => none)
      [⟨"a", "h2"⟩, ⟨"b", "h1"⟩]).2.2.2.1
      (fun i _ _ => ⟨rfl, rfl⟩)
  refine ⟨hd, ?_, ?_⟩
  · rw [hi]
    rfl
  · rw [hp]
    rfl

/-! ## Pod-spec override layering

The numeric-id-taking `GetPodSpec` with the four-layer override merge exists
in this repository only through its tests (part_001); the implementation is
not under `src/`.  The layering is therefore modelled from the spec, §4.2
step 5: override layers apply in ascending precedence — (a) built-in
defaults, (b) deprecated flat `Spec.Containers`, (c) `Spec.PodTemplate`,
(d) per-class `Processes[class].PodTemplate` — with container merge keyed by
container name: a matching name merges field-by-field and a new name
appends. -/

/-- A container as the override layers see it: scalar fields are optional so
a layer only overwrites what it sets. -/
structure OvContainer where
  name : String
  image : Option String
  command : Option (List String)
deriving DecidableEq, Repr

/-- Modelled from the spec: merging an override container into a base
container of the same name — a scalar field set by the later (higher
precedence) layer overwrites, an unset field keeps the earlier value. -/
def mergeContainer (base ov : OvContainer) : OvContainer :=
  { name := base.name
    image := match ov.image with
      | some i => some i
      | none => base.image
    command := match ov.command with
      | some cmd => some cmd
      | none => base.command }

/-- Container lookup by name. -/
def findByName (l : List OvContainer) (n : String) : Option OvContainer :=
  l.find? (fun c => c.name == n)

/-- Modelled from the spec: applying one override layer — a container whose
name matches an existing one merges field-by-field, a new name appends. -/
def applyLayer (cur layer : List OvContainer) : List OvContainer :=
  (cur.map (fun c => match findByName layer c.name with
    | some ov => mergeContainer c ov
    | none => c)) ++
  layer.filter (fun ov => !cur.any (fun c => c.name == ov.name))

/-- Built-in default containers for a cluster version, with the image
references the tests pin down. -/
def builtinContainers (version : String) : List OvContainer :=
  [⟨"foundationdb", some ("foundationdb/foundationdb:" ++ version),
      some ["sh", "-c"]⟩,
   ⟨"foundationdb-kubernetes-sidecar",
      some ("foundationdb/foundationdb-kubernetes-sidecar:" ++ version ++ "-1"),
      none⟩]

/-- The cluster-spec slice carrying the override layers. -/
structure PSCluster where
  version : String
  containersField : List OvContainer
  podTemplate : List OvContainer
  processes : List (String × List OvContainer)
deriving DecidableEq, Repr

/-- The per-class override layer: `Processes[class].PodTemplate`. -/
def perClassContainers (c : PSCluster) (processClass : String) :
    List OvContainer :=
  match c.processes.find? (fun p => p.1 == processClass) with
  | some p => p.2
  | none => []

/-- Modelled from the spec: the four layers in ascending precedence. -/
def resolveContainers (c : PSCluster) (processClass : String) :
    List OvContainer :=
  applyLayer (applyLayer (applyLayer (builtinContainers c.version)
    c.containersField) c.podTemplate) (perClassContainers c processClass)

theorem findByName_some {layer : List OvContainer} {n : String}
    {ov : OvContainer} (h : findByName layer n = some ov) :
    ov ∈ layer ∧ ov.name = n := by
  unfold findByName at h
  refine ⟨List.mem_of_find?_eq_some h, ?_⟩
  have := List.find?_some h
  simpa using this

theorem mergeContainer_image_some (b o : OvContainer) (i : String)
    (h : o.image = some i) : (mergeContainer b o).image = some i := by
  simp only [mergeContainer, h]

theorem applyLayer_final_image (cur layer : List OvContainer)
    (cname img : String) (ov : OvContainer)
    (hnd : (layer.map OvContainer.name).Nodup)
    (hfind : findByName layer cname = some ov)
    (himg : ov.image = some img) :
    (∃ cc ∈ applyLayer cur layer, cc.name = cname) ∧
    (∀ cc ∈ applyLayer cur layer, cc.name = cname → cc.image = some img) := by
  obtain ⟨hovmem, hovname⟩ := findByName_some hfind
  constructor
  · by_cases hcur : ∃ cc ∈ cur, cc.name = cname
    · obtain ⟨cc, hcc, hccn⟩ := hcur
      refine ⟨mergeContainer cc ov, ?_, hccn⟩
      apply List.mem_append.mpr
      left
      apply List.mem_map.mpr
      refine ⟨cc, hcc, ?_⟩
      rw [hccn, hfind]
    · refine ⟨ov, ?_, hovname⟩
      apply List.mem_append.mpr
      right
      have hany : cur.any (fun c => c.name == ov.name) = false := by
        by_contra hcontra
        rw [Bool.not_eq_false, List.any_eq_true] at hcontra
        obtain ⟨cc, hcc, hbeq⟩ := hcontra
        exact hcur ⟨cc, hcc, hovname ▸ (beq_iff_eq.mp hbeq)⟩
      have hgoal : (!cur.any (fun c => c.name == ov.name)) = true := by
        rw [hany]
        rfl
      exact List.mem_filter.mpr ⟨hovmem, hgoal⟩
  · intro cc hcc hccn
    rcases List.mem_append.mp hcc with hin | hin
    · obtain ⟨c0, hc0, hc0eq⟩ := List.mem_map.mp hin
      match hfm : findByName layer c0.name with
      | some ov2 =>
        rw [hfm] at hc0eq
        have hmerge : mergeContainer c0 ov2 = cc := hc0eq
        have hname : c0.name = cname := by
          rw [← hccn, ← hmerge]
          rfl
        rw [hname] at hfm
        rw [hfind] at hfm
        injection hfm with hov2eq
        rw [← hmerge]
        exact mergeContainer_image_some c0 ov2 img (hov2eq ▸ himg)
      | none =>
        rw [hfm] at hc0eq
        have hc0cc : c0 = cc := hc0eq
        rw [hc0cc, hccn] at hfm
        rw [hfind] at hfm
        simp at hfm
    · have hmem2 := (List.mem_filter.mp hin).1
      have hcceq : cc = ov := by
        apply List.inj_on_of_nodup_map hnd hmem2 hovmem
        rw [hccn, hovname]
      rw [hcceq, himg]

/-- C4: in the resolved pod spec built by layering the override sources in
ascending precedence, for any cluster spec where the per-process-class
PodTemplate sets a container's image and the global PodTemplate sets a
different image for the same container name, every resolved container with
that name carries the per-class value (and such a container exists). -/
theorem claim_C4_override_precedence (c : PSCluster)
    (processClass cname img1 img2 : String) (ovg ovp : OvContainer)
    (hglob : findByName c.podTemplate cname = some ovg)
    (hgimg : ovg.image = some img1)
    (hpc : findByName (perClassContainers c processClass) cname = some ovp)
    (hpimg : ovp.image = some img2)
    (hne : img1 ≠ img2)
    (hnd : ((perClassContainers c processClass).map OvContainer.name).Nodup) :
    (∃ cc ∈ resolveContainers c processClass, cc.name = cname) ∧
    (∀ cc ∈ resolveContainers c processClass, cc.name = cname →
      cc.image = some img2) := by
  unfold resolveContainers
  exact applyLayer_final_image _ _ cname img2 ovp hnd hpc hpimg

/-- Witness for C4: with the global template setting image "global-image"
and the storage-class template setting "class-image" for the container
"foundationdb", the resolved head container carries "class-image". -/
theorem claim_C4_override_precedence_witness :
    ((resolveContainers
        ⟨"6.2.20", [], [⟨"foundationdb", some "global-image", none⟩],
          [("storage", [⟨"foundationdb", some "class-image", none⟩])]⟩
        "storage").headD ⟨"", none, none⟩).image = some "class-image" :=
  (claim_C4_override_precedence
    ⟨"6.2.20", [], [⟨"foundationdb", some "global-image", none⟩],
      [("storage", [⟨"foundationdb", some "class-image", none⟩])]⟩
    "storage" "foundationdb" "global-image" "class-image"
    ⟨"foundationdb", some "global-image", none⟩
    ⟨"foundationdb", some "class-image", none⟩
    rfl rfl rfl rfl (by decide) (by decide)).2 _ (by decide) (by decide)
